import Mathlib

/-!
# Order Lifecycle & Persistence Engine — verification development

Shallow embedding of the POS core: the cart aggregate, totals computation,
order finalization (`create_order`), catalog and low-stock queries, the
order-number generator, and the historical dummy-order synthesizer.

Conventions:
* Python `float` currency amounts are modelled as exact rationals (`ℚ`);
  the source never rounds, so all arithmetic identities are exact.
* Python `int` is modelled as `Int` where the source performs no
  positivity validation (submitted quantities), `Nat` where the value is
  structurally non-negative (ids, counters, stock levels).
* SQLite tables are modelled as lists of row structures; an SQL `ORDER BY`
  is modelled as `List.insertionSort` by the corresponding relation, and a
  query result is characterised up to permutation plus sortedness.
* `random` draws are modelled by an abstract stream `rand : Nat → Nat`
  with an explicit position counter; `randint lo hi` becomes
  `lo + rand pos % (hi + 1 - lo)`, which is all the proofs need.
-/

namespace POS

/-- A submitted line item, the shape of the dicts in `create_order`'s
`order_items` argument (`src/database/db_manager.py`, `src/main.py`):
`product_id`, `quantity`, `unit_price`, optional `customizations`.
Quantity is a plain Python int — the source never validates positivity. -/
structure LineItem where
  product_id : Nat
  quantity : Int
  unit_price : ℚ
  customizations : List String
deriving DecidableEq, Repr

/-- The fixed tax rate `0.08` used throughout the source. -/
def taxRate : ℚ := 8 / 100

/-- `subtotal = sum(item['quantity'] * item['unit_price'] for item in order_items)`
(`db_manager.py` line 454, `main.py` line 129). -/
def orderSubtotal (order_items : List LineItem) : ℚ :=
  (order_items.map (fun item => (item.quantity : ℚ) * item.unit_price)).sum

/-- `tax = subtotal * 0.08` (`db_manager.py` line 455, `main.py` line 130).
The source applies no rounding. -/
def orderTax (order_items : List LineItem) : ℚ :=
  orderSubtotal order_items * taxRate

/-- `total = subtotal + tax` (`db_manager.py` line 456, `main.py` line 131). -/
def orderTotal (order_items : List LineItem) : ℚ :=
  orderSubtotal order_items + orderTax order_items

/-- Modelled from the spec: round-half-to-even to the nearest integer,
the semantics of Python's builtin `round` (the source itself never calls
`round`; this definition exists only to state the spec's claimed
`tax == round(subtotal * 0.08, 2)` equation for comparison). -/
def roundHalfEven (q : ℚ) : ℤ :=
  let f := ⌊q⌋
  let r := q - f
  if r < 1 / 2 then f
  else if 1 / 2 < r then f + 1
  else if Even f then f else f + 1

/-- Modelled from the spec: `round(q, 2)`, rounding to two decimal places
with Python's half-to-even semantics. -/
def specRound2 (q : ℚ) : ℚ :=
  (roundHalfEven (100 * q) : ℚ) / 100

/-! ## Catalog products and the cart aggregate -/

/-- A row of the `products` table (the columns the core reads). -/
structure Product where
  id : Nat
  name : String
  category : String
  price : ℚ
  is_available : Bool
deriving DecidableEq, Repr

/-- A cart line item: `{'id', 'name', 'price', 'quantity'}` in
`simple_pos.py`; `new_order_tab.py` additionally stores a
`'customizations'` list (initialised empty). -/
structure CartItem where
  id : Nat
  name : String
  price : ℚ
  quantity : Nat
  customizations : List String
deriving DecidableEq, Repr

/-- `add_to_order` (`simple_pos.py` lines 205–223,
`new_order_tab.py` lines 443–458): scan the current order; the first line
whose product id matches has its quantity incremented and the scan stops
(`break`); if no line matches (`for`/`else`), append a fresh line with
quantity 1 and empty customizations. -/
def add_to_order (current_order : List CartItem) (product : Product) : List CartItem :=
  match current_order with
  | [] => [⟨product.id, product.name, product.price, 1, []⟩]
  | item :: rest =>
    if item.id = product.id then
      { item with quantity := item.quantity + 1 } :: rest
    else
      item :: add_to_order rest product

/-- `remove_from_order` (`simple_pos.py` lines 225–228): keep every line
whose product id differs (`new_order_tab.py` removes the clicked line
object, which under distinct product ids removes the same single line). -/
def remove_from_order (current_order : List CartItem) (product_id : Nat) : List CartItem :=
  current_order.filter (fun item => item.id ≠ product_id)

/-- `clear_order` (`simple_pos.py` lines 266–269): `current_order.clear()`. -/
def clear_order (_current_order : List CartItem) : List CartItem := []

/-- Display totals (`simple_pos.py` lines 257–264, `main.py` lines
404–410, `new_order_tab.py` lines 525–533):
`subtotal = sum(item['price'] * item['quantity'])`. -/
def cartSubtotal (current_order : List CartItem) : ℚ :=
  (current_order.map (fun item => item.price * (item.quantity : ℚ))).sum

/-- `tax = subtotal * 0.08` at display time — no rounding in the value
(only the `f"${tax:.2f}"` format string truncates for display). -/
def cartTax (current_order : List CartItem) : ℚ :=
  cartSubtotal current_order * taxRate

/-- `total = subtotal + tax` at display time. -/
def cartTotal (current_order : List CartItem) : ℚ :=
  cartSubtotal current_order + cartTax current_order

/-- A cart mutation, for stating the reachable-state invariant. -/
inductive CartOp where
  | add (product : Product)
  | remove (product_id : Nat)
  | clear
deriving DecidableEq, Repr

/-- Apply one cart operation. -/
def applyCartOp (current_order : List CartItem) : CartOp → List CartItem
  | .add p => add_to_order current_order p
  | .remove pid => remove_from_order current_order pid
  | .clear => clear_order current_order

/-- Apply a sequence of cart operations starting from the given cart. -/
def applyCartOps (current_order : List CartItem) (ops : List CartOp) : List CartItem :=
  ops.foldl applyCartOp current_order

/-- Observable: the total quantity the cart records for one product id. -/
def cartQtyOf (current_order : List CartItem) (product_id : Nat) : Nat :=
  ((current_order.filter (fun item => item.id = product_id)).map CartItem.quantity).sum

/-- The cart representation invariant: pairwise-distinct product ids and
every line quantity at least 1. -/
def CartInv (current_order : List CartItem) : Prop :=
  (current_order.map CartItem.id).Nodup ∧ ∀ item ∈ current_order, 1 ≤ item.quantity

/-! ## Timestamps and the order-number generator -/

/-- A wall-clock timestamp at second resolution, the information
`datetime.now().strftime('%Y%m%d%H%M%S')` consumes. -/
structure DateTime where
  year : Nat
  month : Nat
  day : Nat
  hour : Nat
  minute : Nat
  second : Nat
deriving DecidableEq, Repr

/-- A calendar timestamp produced by a real clock: field bounds as
`datetime` guarantees them (month 1–12, day 1–31, hour < 24,
minute/second < 60, four-digit year). -/
def ValidDateTime (t : DateTime) : Prop :=
  1 ≤ t.month ∧ t.month ≤ 12 ∧ 1 ≤ t.day ∧ t.day ≤ 31 ∧
    t.hour < 24 ∧ t.minute < 60 ∧ t.second < 60 ∧ t.year < 10000

instance (t : DateTime) : Decidable (ValidDateTime t) := by
  unfold ValidDateTime; infer_instance

/-- `order_number = f"ORD{datetime.now().strftime('%Y%m%d%H%M%S')}"`
(`db_manager.py` line 459, `main.py` line 134). The generated string is
the constant `"ORD"` followed by the zero-padded digit fields, so it is
modelled by the numeric value of that digit sequence: two generated
strings are equal iff these numbers are equal. -/
def genOrderNumber (t : DateTime) : Nat :=
  ((((t.year * 100 + t.month) * 100 + t.day) * 100 + t.hour) * 100 + t.minute) * 100
    + t.second

/-- The arguments of one `create_order` call, plus the wall-clock instant
at which `datetime.now()` is evaluated inside it. Two concurrent calls
are two values of this type sharing (at second resolution) their `now`. -/
structure FinalizeCall where
  customer_id : Option Nat
  order_items : List LineItem
  payment_method : String
  cashier_name : String
  now : DateTime
deriving DecidableEq, Repr

/-- The order number a given `create_order` call generates: it depends on
nothing but the wall-clock second. -/
def callOrderNumber (call : FinalizeCall) : Nat :=
  genOrderNumber call.now

/-! ## The database and the finalize transaction -/

/-- A row of the `orders` table. -/
structure OrderRow where
  id : Nat
  customer_id : Option Nat
  order_number : Nat
  subtotal : ℚ
  tax : ℚ
  total : ℚ
  payment_method : String
  status : String
  cashier_name : String
  created_at : DateTime
deriving DecidableEq, Repr

/-- A row of the `order_items` table. -/
structure OrderItemRow where
  order_id : Nat
  product_id : Nat
  quantity : Int
  unit_price : ℚ
  customizations : List String
deriving DecidableEq, Repr

/-- A row of the `inventory` table (the columns the queries read). -/
structure InventoryRow where
  product_id : Nat
  current_stock : Nat
  min_stock : Nat
  max_stock : Nat
deriving DecidableEq, Repr

/-- The persisted store: the tables the core reads and writes. -/
structure DB where
  products : List Product
  inventory : List InventoryRow
  orders : List OrderRow
  order_items : List OrderItemRow
deriving DecidableEq, Repr

/-- SQLite's `AUTOINCREMENT` row id for the next inserted order: one more
than the largest id ever used (the core never deletes orders). -/
def nextOrderId (db : DB) : Nat :=
  (db.orders.map OrderRow.id).foldr max 0 + 1

/-- One SQL statement executed by `create_order` inside its connection:
the order insert, an item insert, or the final `conn.commit()`. -/
inductive SqlStmt where
  | insertOrder (row : OrderRow)
  | insertOrderItem (row : OrderItemRow)
  | commit
deriving DecidableEq, Repr

/-- An open SQLite connection in transactional (default) mode: `pending`
is the connection's uncommitted view of the database, `committed` the
durable state other connections observe. Inserts touch only `pending`;
`commit` publishes it. Rolling back discards `pending`. -/
structure SqlConn where
  committed : DB
  pending : DB
deriving DecidableEq, Repr

/-- `sqlite3.connect`: a fresh connection whose view agrees with the
durable state. -/
def connectDB (db : DB) : SqlConn := ⟨db, db⟩

/-- Execute one statement on the connection. -/
def execStmt (conn : SqlConn) : SqlStmt → SqlConn
  | .insertOrder row =>
    { conn with pending := { conn.pending with orders := conn.pending.orders ++ [row] } }
  | .insertOrderItem row =>
    { conn with pending :=
        { conn.pending with order_items := conn.pending.order_items ++ [row] } }
  | .commit => ⟨conn.pending, conn.pending⟩

/-- The order row `create_order` inserts: computed subtotal/tax/total,
order number from `now`, status defaulting to `'completed'`. -/
def orderRowOf (db : DB) (customer_id : Option Nat) (order_items : List LineItem)
    (payment_method : String) (cashier_name : String) (now : DateTime) : OrderRow :=
  ⟨nextOrderId db, customer_id, genOrderNumber now, orderSubtotal order_items,
    orderSubtotal order_items * taxRate,
    orderSubtotal order_items + orderSubtotal order_items * taxRate,
    payment_method, "completed", cashier_name, now⟩

/-- The item row inserted for one submitted line item: the order's row
id plus the item's submitted product id, quantity and unit price
(`json.dumps(item.get('customizations', []))` keeps the submitted list,
defaulting to empty). -/
def itemRowOf (order_id : Nat) (item : LineItem) : OrderItemRow :=
  ⟨order_id, item.product_id, item.quantity, item.unit_price, item.customizations⟩

/-- The statement sequence `create_order` issues
(`db_manager.py` lines 447–481): compute subtotal/tax/total, generate the
order number from `now`, insert the order row, insert one row per line
item, then `conn.commit()`. (`main.py` lines 123–153 issues the same
sequence without the `customer_id` field.) -/
def createOrderStmts (db : DB) (customer_id : Option Nat) (order_items : List LineItem)
    (payment_method : String) (cashier_name : String) (now : DateTime) : List SqlStmt :=
  SqlStmt.insertOrder (orderRowOf db customer_id order_items payment_method cashier_name now)
    :: (order_items.map (fun item =>
          SqlStmt.insertOrderItem (itemRowOf (nextOrderId db) item))
        ++ [SqlStmt.commit])

/-- A fault injected after the first `k` statements of the transaction:
the statements run, the exception aborts the call, the `with` block (or
the closed-without-commit connection) rolls the transaction back, and the
durable state is what `committed` holds at that point. -/
def runWithFault (db : DB) (stmts : List SqlStmt) (k : Nat) : DB :=
  ((stmts.take k).foldl execStmt (connectDB db)).committed

/-- A successful `create_order` run: every statement executes, the
transaction commits; returns the new durable state and `cursor.lastrowid`
of the order insert. -/
def create_order (db : DB) (customer_id : Option Nat) (order_items : List LineItem)
    (payment_method : String) (cashier_name : String) (now : DateTime) : DB × Nat :=
  (((createOrderStmts db customer_id order_items payment_method cashier_name now).foldl
      execStmt (connectDB db)).committed,
    nextOrderId db)

/-- `process_payment` (`main.py` lines 417–432): return immediately when
the cart is empty (`if not self.current_order: return`); otherwise build
the `order_items` dicts from the cart lines and call
`create_order(order_items, "cash", "Jane Doe")`, then clear the cart. -/
def process_payment (db : DB) (current_order : List CartItem) (now : DateTime) :
    DB × List CartItem :=
  if current_order = [] then (db, current_order)
  else
    let order_items := current_order.map (fun item =>
      (⟨item.id, (item.quantity : Int), item.price, []⟩ : LineItem))
    ((create_order db none order_items "cash" "Jane Doe" now).1, [])

/-! ## Catalog and low-stock queries -/

/-- `ORDER BY name` on product rows. -/
def byName (a b : Product) : Prop := a.name ≤ b.name

instance : DecidableRel byName := fun a b =>
  inferInstanceAs (Decidable (a.name ≤ b.name))

instance : IsTotal Product byName := ⟨fun a b => le_total a.name b.name⟩

instance : IsTrans Product byName := ⟨fun _ _ _ h h2 => le_trans h h2⟩

/-- `ORDER BY category, name` on product rows. -/
def byCatName (a b : Product) : Prop :=
  a.category < b.category ∨ (a.category = b.category ∧ a.name ≤ b.name)

instance : DecidableRel byCatName := fun a b =>
  inferInstanceAs
    (Decidable (a.category < b.category ∨ (a.category = b.category ∧ a.name ≤ b.name)))

instance : IsTotal Product byCatName := by
  constructor
  intro a b
  rcases lt_trichotomy a.category b.category with h | h | h
  · exact Or.inl (Or.inl h)
  · rcases le_total a.name b.name with h2 | h2
    · exact Or.inl (Or.inr ⟨h, h2⟩)
    · exact Or.inr (Or.inr ⟨h.symm, h2⟩)
  · exact Or.inr (Or.inl h)

instance : IsTrans Product byCatName := by
  constructor
  intro a b c hab hbc
  rcases hab with h | ⟨he, hn⟩
  · rcases hbc with h2 | ⟨he2, _⟩
    · exact Or.inl (h.trans h2)
    · exact Or.inl (he2 ▸ h)
  · rcases hbc with h2 | ⟨he2, hn2⟩
    · exact Or.inl (he ▸ h2)
    · exact Or.inr ⟨he.trans he2, hn.trans hn2⟩

/-- `get_products_by_category` (`db_manager.py` lines 417–430):
`SELECT * FROM products WHERE category = ? AND is_available = 1 ORDER BY name`
for every argument — this variant has no sentinel branch, so `"All"` is
matched literally against the `category` column. -/
def get_products_by_category (db : DB) (category : String) : List Product :=
  List.insertionSort byName
    (db.products.filter (fun p => p.category = category ∧ p.is_available = true))

/-- `get_products_by_category` (`main.py` lines 108–121): the `"All"`
sentinel returns every available product
`ORDER BY category, name`; any other argument filters by category and
orders by name. -/
def mainGetProductsByCategory (db : DB) (category : String) : List Product :=
  if category = "All" then
    List.insertionSort byCatName (db.products.filter (fun p => p.is_available = true))
  else
    get_products_by_category db category

/-- A row of the low-stock report: `(p.name, i.current_stock, i.min_stock)`. -/
structure LowStockRow where
  name : String
  current_stock : Nat
  min_stock : Nat
deriving DecidableEq, Repr

/-- `ORDER BY i.current_stock` on report rows. -/
def byStock (a b : LowStockRow) : Prop := a.current_stock ≤ b.current_stock

instance : DecidableRel byStock := fun a b =>
  inferInstanceAs (Decidable (a.current_stock ≤ b.current_stock))

instance : IsTotal LowStockRow byStock :=
  ⟨fun a b => le_total a.current_stock b.current_stock⟩

instance : IsTrans LowStockRow byStock := ⟨fun _ _ _ h h2 => le_trans h h2⟩

/-- `FROM products p JOIN inventory i ON p.id = i.product_id`:
every (product, inventory) pair agreeing on the product id. -/
def joinProductsInventory (db : DB) : List LowStockRow :=
  db.products.flatMap (fun p =>
    (db.inventory.filter (fun i => i.product_id = p.id)).map (fun i =>
      ⟨p.name, i.current_stock, i.min_stock⟩))

/-- `get_low_stock_items` (`db_manager.py` lines 508–523): the join,
filtered by `i.current_stock <= i.min_stock`, `ORDER BY i.current_stock`. -/
def get_low_stock_items (db : DB) : List LowStockRow :=
  List.insertionSort byStock
    ((joinProductsInventory db).filter (fun r => r.current_stock ≤ r.min_stock))

/-! ## The historical synthesizer (`_generate_dummy_orders`)

The source draws from Python's global `random`. The proofs only need
which *range* each draw lies in, so randomness is modelled by an
abstract stream `rand : Nat → Nat` consumed at an explicit position:
`random.randint(a, b)` becomes `a + rand pos % (b + 1 - a)` (always in
`[a, b]`), `random.random() < 0.7` becomes `rand pos % 10 < 7`, and
`random.sample`/`random.choice` pick stream-determined indices. -/

/-- `a + rand pos % (b + 1 - a)`: the model of `random.randint(a, b)`,
together with the advanced stream position. -/
def srandint (lo hi : Nat) (rand : Nat → Nat) (pos : Nat) : Nat × Nat :=
  (lo + rand pos % (hi + 1 - lo), pos + 1)

/-- Remove the `n`-th element of a list, returning it and the remainder
(`none` when the index is out of range). -/
def pickIdx {α : Type} : List α → Nat → Option (α × List α)
  | [], _ => none
  | x :: xs, 0 => some (x, xs)
  | x :: xs, n + 1 => (pickIdx xs n).map (fun p => (p.1, x :: p.2))

/-- `random.sample(l, k)`: draw `k` elements without replacement by
repeatedly removing a stream-chosen position. (The out-of-range branch is
unreachable for `k ≤ l.length`, the only way the source calls it.) -/
def sampleFrom {α : Type} (rand : Nat → Nat) : Nat → List α → Nat → List α × Nat
  | 0, _, pos => ([], pos)
  | _ + 1, [], pos => ([], pos)
  | k + 1, l, pos =>
    match pickIdx l (rand pos % l.length) with
    | none => ([], pos + 1)
    | some (x, rest) =>
      let r := sampleFrom rand k rest (pos + 1)
      (x :: r.1, r.2)

/-- Gregorian leap-year test. -/
def isLeapYear (y : Nat) : Bool :=
  (y % 4 == 0 && y % 100 != 0) || y % 400 == 0

/-- Number of days in a Gregorian month. -/
def daysInMonth (y m : Nat) : Nat :=
  if m = 2 then (if isLeapYear y then 29 else 28)
  else if m = 4 ∨ m = 6 ∨ m = 9 ∨ m = 11 then 30
  else 31

/-- A calendar date, the part of a `datetime` that
`timedelta(days=...)` arithmetic and `strftime('%Y%m%d')` read. -/
structure DateYMD where
  year : Nat
  month : Nat
  day : Nat
deriving DecidableEq, Repr

/-- A well-formed Gregorian date, as `datetime` maintains it. -/
def ValidYMD (d : DateYMD) : Prop :=
  1 ≤ d.month ∧ d.month ≤ 12 ∧ 1 ≤ d.day ∧ d.day ≤ daysInMonth d.year d.month

instance (d : DateYMD) : Decidable (ValidYMD d) := by
  unfold ValidYMD; infer_instance

/-- `date + timedelta(days=1)`. -/
def nextDay (d : DateYMD) : DateYMD :=
  if d.day < daysInMonth d.year d.month then ⟨d.year, d.month, d.day + 1⟩
  else if d.month < 12 then ⟨d.year, d.month + 1, 1⟩
  else ⟨d.year + 1, 1, 1⟩

/-- `date - timedelta(days=1)`. -/
def prevDay (d : DateYMD) : DateYMD :=
  if 1 < d.day then ⟨d.year, d.month, d.day - 1⟩
  else if 1 < d.month then ⟨d.year, d.month - 1, daysInMonth d.year (d.month - 1)⟩
  else ⟨d.year - 1, 12, 31⟩

/-- `date - timedelta(days=n)`. -/
def prevDays : Nat → DateYMD → DateYMD
  | 0, d => d
  | n + 1, d => prevDays n (prevDay d)

/-- The numeric value of `date.strftime('%Y%m%d')`. -/
def dateCode (d : DateYMD) : Nat :=
  (d.year * 100 + d.month) * 100 + d.day

/-- One `order_items.append((product_id, quantity, price))` entry of a
generated dummy order. -/
structure GenOrderItem where
  product_id : Nat
  quantity : Nat
  unit_price : ℚ
deriving DecidableEq, Repr

/-- One generated dummy order, as inserted by `_generate_dummy_orders`
(`db_manager.py` lines 356–415). `order_number` is the numeric value of
the digit part of `f"ORD{order_date.strftime('%Y%m%d')}{order_num:03d}"`
(valid because the per-day sequence number stays below 1000). -/
structure GenOrder where
  order_number : Nat
  customer_id : Option Nat
  subtotal : ℚ
  tax : ℚ
  total : ℚ
  payment_method : String
  cashier_name : String
  created_at : DateYMD
  items : List GenOrderItem
deriving DecidableEq, Repr

/-- The `for product_id, price in selected_products` loop: draw
`quantity = random.randint(1, 3)` for each sampled product. -/
def drawQuantities (rand : Nat → Nat) : List (Nat × ℚ) → Nat → List GenOrderItem × Nat
  | [], pos => ([], pos)
  | (pid, price) :: rest, pos =>
    let q := (srandint 1 3 rand pos).1
    let r := drawQuantities rand rest (pos + 1)
    (⟨pid, q, price⟩ :: r.1, r.2)

/-- `subtotal += price * quantity` accumulated over the generated items. -/
def genSubtotal (items : List GenOrderItem) : ℚ :=
  (items.map (fun it => it.unit_price * (it.quantity : ℚ))).sum

/-- One iteration of the inner `for order_num in range(daily_orders)`
loop of `_generate_dummy_orders`: order number from the synthetic date
and the per-day sequence number, 70%-probable customer, 1–4 sampled
distinct products with quantities 1–3, totals exactly as in
`create_order`, payment method and cashier from fixed triples. -/
def genOneOrder (products : List (Nat × ℚ)) (customers : List Nat)
    (order_date : DateYMD) (order_num : Nat) (rand : Nat → Nat) (pos : Nat) :
    GenOrder × Nat :=
  let order_number := dateCode order_date * 1000 + order_num
  let roll := rand pos % 10
  let pos := pos + 1
  let cust :=
    if roll < 7 then (customers.get? (rand pos % customers.length), pos + 1)
    else (none, pos)
  let customer_id := cust.1
  let pos := cust.2
  let ni := srandint 1 4 rand pos
  let num_items := ni.1
  let pos := ni.2
  let sel := sampleFrom rand (min num_items products.length) products pos
  let selected_products := sel.1
  let pos := sel.2
  let di := drawQuantities rand selected_products pos
  let order_items := di.1
  let pos := di.2
  let subtotal := genSubtotal order_items
  let tax := subtotal * taxRate
  let total := subtotal + tax
  let payment_method := ["cash", "card", "mobile"].getD (rand pos % 3) "cash"
  let pos := pos + 1
  let cashier := ["Jane Doe", "John Cashier", "Alice Brown"].getD (rand pos % 3) "Jane Doe"
  let pos := pos + 1
  (⟨order_number, customer_id, subtotal, tax, total, payment_method, cashier,
      order_date, order_items⟩,
    pos)

/-- The orders of one synthetic day: `count` remaining iterations, the
next per-day sequence number, and the stream position. -/
def genDayAux (products : List (Nat × ℚ)) (customers : List Nat)
    (order_date : DateYMD) (rand : Nat → Nat) :
    Nat → Nat → Nat → List GenOrder × Nat
  | 0, _, pos => ([], pos)
  | n + 1, order_num, pos =>
    let o := genOneOrder products customers order_date order_num rand pos
    let rest := genDayAux products customers order_date rand n (order_num + 1) o.2
    (o.1 :: rest.1, rest.2)

/-- The outer `for day in range(30)` loop, generalised over the number of
remaining days: draw `daily_orders = random.randint(5, 15)`, generate
that day's orders, continue on the next calendar day. -/
def genDays (products : List (Nat × ℚ)) (customers : List Nat) (rand : Nat → Nat) :
    Nat → DateYMD → Nat → List (DateYMD × List GenOrder) × Nat
  | 0, _, pos => ([], pos)
  | n + 1, order_date, pos =>
    let dcount := srandint 5 15 rand pos
    let day := genDayAux products customers order_date rand dcount.1 0 dcount.2
    let rest := genDays products customers rand n (nextDay order_date) day.2
    ((order_date, day.1) :: rest.1, rest.2)

/-- `_generate_dummy_orders` (`db_manager.py` lines 356–415):
`start_date = datetime.now() - timedelta(days=30)`, then one batch of
orders per day for 30 consecutive synthetic days, grouped by their
backdated creation date. -/
def generate_dummy_orders (products : List (Nat × ℚ)) (customers : List Nat)
    (now : DateYMD) (rand : Nat → Nat) : List (DateYMD × List GenOrder) :=
  (genDays products customers rand 30 (prevDays 30 now) 0).1

/-! ## Transaction lemmas -/

/-- Item-insert statements only append to the pending `order_items` table. -/
lemma foldl_insertItems (conn : SqlConn) (rows : List OrderItemRow) :
    (rows.map SqlStmt.insertOrderItem).foldl execStmt conn
      = { conn with pending :=
            { conn.pending with order_items := conn.pending.order_items ++ rows } } := by
  induction rows generalizing conn with
  | nil => simp
  | cons r rest ih =>
    rw [List.map_cons, List.foldl_cons,
      show execStmt conn (SqlStmt.insertOrderItem r)
          = { conn with pending :=
                { conn.pending with
                    order_items := conn.pending.order_items ++ [r] } } from rfl,
      ih]
    simp [List.append_assoc]

/-- A statement list containing no `commit` cannot change the durable state. -/
lemma foldl_committed_of_no_commit (stmts : List SqlStmt) (conn : SqlConn)
    (h : SqlStmt.commit ∉ stmts) :
    (stmts.foldl execStmt conn).committed = conn.committed := by
  induction stmts generalizing conn with
  | nil => rfl
  | cons s rest ih =>
    simp only [List.mem_cons, not_or] at h
    rw [List.foldl_cons, ih _ h.2]
    cases s with
    | insertOrder row => rfl
    | insertOrderItem row => rfl
    | commit => exact absurd rfl h.1

/-- The durable state after a successful `create_order` run: the order
row and all item rows are appended, everything else is unchanged. -/
lemma create_order_run (db : DB) (customer_id : Option Nat) (order_items : List LineItem)
    (payment_method : String) (cashier_name : String) (now : DateTime) :
    (create_order db customer_id order_items payment_method cashier_name now).1
      = { db with
            orders := db.orders
              ++ [orderRowOf db customer_id order_items payment_method cashier_name now],
            order_items := db.order_items
              ++ order_items.map (itemRowOf (nextOrderId db)) } := by
  have hmap : order_items.map (fun item =>
        SqlStmt.insertOrderItem (itemRowOf (nextOrderId db) item))
      = (order_items.map (itemRowOf (nextOrderId db))).map SqlStmt.insertOrderItem := by
    rw [List.map_map]; rfl
  simp only [create_order, createOrderStmts, hmap, List.foldl_cons, List.foldl_append,
    foldl_insertItems, List.foldl_cons, List.foldl_nil, execStmt, connectDB]

/-! ## C1 — totals invariant -/

/-- C1: counterexample. The code never rounds the tax. For the single
line item (product 1, quantity 1, unit price 0.11) the computed tax is
0.0088, while `round(subtotal × 0.08, 2) = 0.01`, so the claimed pair of
equations `total = subtotal + tax ∧ tax = round(subtotal × 0.08, 2)`
fails at this cart. -/
theorem c1_totals_counterexample :
    ¬ (orderTotal [⟨1, 1, 11 / 100, []⟩]
          = orderSubtotal [⟨1, 1, 11 / 100, []⟩] + orderTax [⟨1, 1, 11 / 100, []⟩]
        ∧ orderTax [⟨1, 1, 11 / 100, []⟩]
          = specRound2 (orderSubtotal [⟨1, 1, 11 / 100, []⟩] * taxRate)) := by
  intro h
  have h2 := h.2
  rw [orderTax, show orderSubtotal [⟨1, 1, 11 / 100, []⟩] = 11 / 100 from by
      simp [orderSubtotal], taxRate] at h2
  norm_num [specRound2, roundHalfEven] at h2

/-- C1 (amended): for every cart and every line-item sequence the
computed totals satisfy `total = subtotal + tax` and
`tax = subtotal × 0.08` exactly — the tax is never rounded (only the
`"%.2f"` display format truncates) — and the row persisted by `finalize`
carries exactly these values. -/
theorem c1_totals_amended (cart : List CartItem) (order_items : List LineItem)
    (db : DB) (customer_id : Option Nat) (pm cn : String) (now : DateTime) :
    cartTotal cart = cartSubtotal cart + cartTax cart ∧
    cartTax cart = cartSubtotal cart * taxRate ∧
    orderTotal order_items = orderSubtotal order_items + orderTax order_items ∧
    orderTax order_items = orderSubtotal order_items * taxRate ∧
    (create_order db customer_id order_items pm cn now).1.orders
      = db.orders ++ [orderRowOf db customer_id order_items pm cn now] ∧
    (orderRowOf db customer_id order_items pm cn now).subtotal
      = orderSubtotal order_items ∧
    (orderRowOf db customer_id order_items pm cn now).tax
      = (orderRowOf db customer_id order_items pm cn now).subtotal * taxRate ∧
    (orderRowOf db customer_id order_items pm cn now).total
      = (orderRowOf db customer_id order_items pm cn now).subtotal
        + (orderRowOf db customer_id order_items pm cn now).tax := by
  refine ⟨rfl, rfl, rfl, rfl, ?_, rfl, rfl, rfl⟩
  rw [create_order_run]

/-! ## C2 — atomicity of the finalize transaction -/

/-- C2: injecting a failure after the order-row insert but before or
during the item inserts (after `k` statements, for any
`1 ≤ k ≤ 1 + #items`, so the commit never runs) rolls the transaction
back: the durable state is exactly the pre-call state — zero order rows
and zero item rows from the attempt. -/
theorem c2_finalize_atomic (db : DB) (customer_id : Option Nat)
    (order_items : List LineItem) (pm cn : String) (now : DateTime) (k : Nat)
    (hk1 : 1 ≤ k) (hk2 : k ≤ 1 + order_items.length) :
    runWithFault db (createOrderStmts db customer_id order_items pm cn now) k = db := by
  have hno : SqlStmt.commit
      ∉ (createOrderStmts db customer_id order_items pm cn now).take k := by
    intro hmem
    obtain ⟨j, rfl⟩ : ∃ j, k = j + 1 := ⟨k - 1, by omega⟩
    rw [createOrderStmts, List.take_succ_cons, List.take_append_eq_append_take,
      show j - (order_items.map (fun item =>
          SqlStmt.insertOrderItem (itemRowOf (nextOrderId db) item))).length = 0 from by
        simp only [List.length_map]; omega,
      List.take_zero, List.append_nil] at hmem
    rcases List.mem_cons.mp hmem with h | h
    · exact absurd h (by simp)
    · obtain ⟨item, _, heq⟩ := List.mem_map.mp (List.take_subset _ _ h)
      exact absurd heq (by simp)
  rw [runWithFault, foldl_committed_of_no_commit _ _ hno]
  rfl

/-- C2 witness: a concrete fault right after the order-row insert leaves
the empty store unchanged. -/
theorem c2_finalize_atomic_witness :
    runWithFault ⟨[], [], [], []⟩
      (createOrderStmts ⟨[], [], [], []⟩ none [⟨1, 2, 5 / 2, []⟩] "cash" "Jane Doe"
        ⟨2025, 1, 15, 10, 30, 45⟩) 1 = ⟨[], [], [], []⟩ :=
  c2_finalize_atomic ⟨[], [], [], []⟩ none [⟨1, 2, 5 / 2, []⟩] "cash" "Jane Doe"
    ⟨2025, 1, 15, 10, 30, 45⟩ 1 (by omega) (by simp)

/-! ## C3 — successful finalize persists the submitted data -/

/-- C3: after a successful `create_order`, the stored order row carries
exactly the computed subtotal/tax/total, and the stored item rows for the
new order are exactly one per submitted line item, each carrying its
submitted product id, quantity and unit price. (The freshness hypothesis
says no pre-existing item row already uses the new order's row id, which
`AUTOINCREMENT` guarantees.) -/
theorem c3_persisted_matches (db : DB) (customer_id : Option Nat)
    (order_items : List LineItem) (pm cn : String) (now : DateTime)
    (hfresh : ∀ it ∈ db.order_items, it.order_id ≠ nextOrderId db) :
    (create_order db customer_id order_items pm cn now).1.orders
      = db.orders ++ [orderRowOf db customer_id order_items pm cn now] ∧
    (orderRowOf db customer_id order_items pm cn now).subtotal
      = orderSubtotal order_items ∧
    (orderRowOf db customer_id order_items pm cn now).tax = orderTax order_items ∧
    (orderRowOf db customer_id order_items pm cn now).total = orderTotal order_items ∧
    ((create_order db customer_id order_items pm cn now).1.order_items.filter
        (fun it => it.order_id = nextOrderId db))
      = order_items.map (itemRowOf (nextOrderId db)) ∧
    ((create_order db customer_id order_items pm cn now).1.order_items.filter
        (fun it => it.order_id = nextOrderId db)).length
      = order_items.length ∧
    ∀ item : LineItem,
      (itemRowOf (nextOrderId db) item).product_id = item.product_id ∧
      (itemRowOf (nextOrderId db) item).quantity = item.quantity ∧
      (itemRowOf (nextOrderId db) item).unit_price = item.unit_price := by
  have hfilter :
      ((create_order db customer_id order_items pm cn now).1.order_items.filter
          (fun it => it.order_id = nextOrderId db))
        = order_items.map (itemRowOf (nextOrderId db)) := by
    rw [create_order_run]
    show (db.order_items ++ order_items.map (itemRowOf (nextOrderId db))).filter _ = _
    rw [List.filter_append,
      List.filter_eq_nil_iff.mpr (by
        intro it hit
        simpa using hfresh it hit),
      List.nil_append, List.filter_eq_self.mpr (by
        intro row hrow
        obtain ⟨item, _, rfl⟩ := List.mem_map.mp hrow
        simp [itemRowOf])]
  refine ⟨?_, rfl, rfl, rfl, hfilter, ?_, fun item => ⟨rfl, rfl, rfl⟩⟩
  · rw [create_order_run]
  · rw [hfilter, List.length_map]

/-- C3 witness: one submitted line item against the empty store yields
exactly one stored item row for the new order. -/
theorem c3_persisted_matches_witness :
    ((create_order ⟨[], [], [], []⟩ none [⟨1, 2, 5 / 2, []⟩] "cash" "Jane Doe"
        ⟨2025, 1, 15, 10, 30, 45⟩).1.order_items.filter
      (fun it => it.order_id = nextOrderId ⟨[], [], [], []⟩)).length = 1 :=
  (c3_persisted_matches ⟨[], [], [], []⟩ none [⟨1, 2, 5 / 2, []⟩] "cash" "Jane Doe"
    ⟨2025, 1, 15, 10, 30, 45⟩ (by simp)).2.2.2.2.2.1

/-! ## C4 — validation of empty carts and non-positive quantities -/

/-- C4: counterexample. Calling `create_order` with an empty line-item
list is not rejected: it writes an order row (with zero totals), so the
stored state changes. -/
theorem c4_empty_finalize_counterexample :
    (create_order ⟨[], [], [], []⟩ none [] "cash" "Jane Doe"
        ⟨2025, 1, 15, 10, 30, 45⟩).1 ≠ ⟨[], [], [], []⟩ := by
  rw [create_order_run]
  intro h
  have horders := congrArg DB.orders h
  simp at horders

/-- C4 (amended): `create_order` itself performs no validation — on an
empty list it still commits an order row with subtotal/tax/total 0 and no
item rows, and a non-positive quantity is stored as submitted; the only
empty-cart guard is in the UI caller `process_payment`, which returns
without touching the store when the cart is empty. -/
theorem c4_validation_amended (db : DB) (customer_id : Option Nat) (pm cn : String)
    (now : DateTime) :
    process_payment db [] now = (db, []) ∧
    (create_order db customer_id [] pm cn now).1.orders
      = db.orders ++ [⟨nextOrderId db, customer_id, genOrderNumber now, 0, 0, 0, pm,
          "completed", cn, now⟩] ∧
    (create_order db customer_id [] pm cn now).1.order_items = db.order_items ∧
    (create_order db customer_id [⟨1, -1, 1, []⟩] pm cn now).1.order_items
      = db.order_items ++ [⟨nextOrderId db, 1, -1, 1, []⟩] := by
  refine ⟨by simp [process_payment], ?_, ?_, ?_⟩
  · rw [create_order_run]
    simp [orderRowOf, orderSubtotal]
  · rw [create_order_run]
    simp
  · rw [create_order_run]
    simp [itemRowOf]

/-! ## C5 — order-number uniqueness -/

/-- The timestamp-digit encoding is injective on valid timestamps. -/
lemma genOrderNumber_inj (t1 t2 : DateTime) (h1 : ValidDateTime t1)
    (h2 : ValidDateTime t2) (h : genOrderNumber t1 = genOrderNumber t2) :
    t1 = t2 := by
  obtain ⟨y1, mo1, d1, hh1, mi1, s1⟩ := t1
  obtain ⟨y2, mo2, d2, hh2, mi2, s2⟩ := t2
  simp only [ValidDateTime] at h1 h2
  simp only [genOrderNumber] at h
  simp only [DateTime.mk.injEq]
  omega

/-- C5: counterexample. Two distinct finalize calls within the same
wall-clock second (here differing in payment method) generate the same
order number: the generator reads nothing but the second-resolution
timestamp `datetime.now().strftime('%Y%m%d%H%M%S')`. -/
theorem c5_order_number_counterexample :
    (⟨none, [], "cash", "Jane Doe", ⟨2025, 1, 15, 10, 30, 45⟩⟩ : FinalizeCall)
        ≠ ⟨none, [], "card", "Jane Doe", ⟨2025, 1, 15, 10, 30, 45⟩⟩ ∧
    callOrderNumber ⟨none, [], "cash", "Jane Doe", ⟨2025, 1, 15, 10, 30, 45⟩⟩
      = callOrderNumber ⟨none, [], "card", "Jane Doe", ⟨2025, 1, 15, 10, 30, 45⟩⟩ :=
  ⟨by decide, rfl⟩

/-- C5 (amended): the generated order number is a function of the
wall-clock second alone — two finalize calls collide exactly when they
fall in the same second. Same-second calls always generate equal numbers
(the `UNIQUE` constraint on `orders.order_number` then rejects the second
insert), and calls in distinct seconds always generate distinct numbers. -/
theorem c5_order_number_amended (c1 c2 : FinalizeCall)
    (h1 : ValidDateTime c1.now) (h2 : ValidDateTime c2.now) :
    callOrderNumber c1 = callOrderNumber c2 ↔ c1.now = c2.now := by
  constructor
  · exact fun h => genOrderNumber_inj c1.now c2.now h1 h2 h
  · intro h
    rw [callOrderNumber, callOrderNumber, h]

/-- C5 witness: two calls one second apart generate distinct numbers. -/
theorem c5_order_number_amended_witness :
    (callOrderNumber ⟨none, [], "cash", "Jane Doe", ⟨2025, 1, 15, 10, 30, 45⟩⟩
        = callOrderNumber ⟨none, [], "cash", "Jane Doe", ⟨2025, 1, 15, 10, 30, 46⟩⟩)
      ↔ (⟨2025, 1, 15, 10, 30, 45⟩ : DateTime) = ⟨2025, 1, 15, 10, 30, 46⟩ :=
  c5_order_number_amended
    ⟨none, [], "cash", "Jane Doe", ⟨2025, 1, 15, 10, 30, 45⟩⟩
    ⟨none, [], "cash", "Jane Doe", ⟨2025, 1, 15, 10, 30, 46⟩⟩
    (by decide) (by decide)

/-! ## C6 — catalog listing by category -/

/-- C6: counterexample. `db_manager.py`'s `get_products_by_category` has
no `"All"` sentinel branch: with a store holding one available Coffee
product, querying `"All"` matches the literal category string and
returns nothing instead of every available product. -/
theorem c6_sentinel_counterexample :
    (⟨1, "Latte", "Coffee", 4, true⟩ : Product)
        ∈ (⟨[⟨1, "Latte", "Coffee", 4, true⟩], [], [], []⟩ : DB).products ∧
    (⟨1, "Latte", "Coffee", 4, true⟩ : Product).is_available = true ∧
    (⟨1, "Latte", "Coffee", 4, true⟩ : Product)
      ∉ get_products_by_category
          ⟨[⟨1, "Latte", "Coffee", 4, true⟩], [], [], []⟩ "All" := by
  refine ⟨by simp, rfl, ?_⟩
  have hempty : get_products_by_category
      ⟨[⟨1, "Latte", "Coffee", 4, true⟩], [], [], []⟩ "All" = [] := by
    simp [get_products_by_category, List.filter, List.insertionSort]
  rw [hempty]
  simp

/-- C6 (amended): the per-category contract holds of both
implementations — available products of the requested category, ordered
by name — and `main.py`'s variant additionally implements the `"All"`
sentinel (every available product, ordered by category then name), while
`db_manager.py`'s variant treats `"All"` as a literal category value. -/
theorem c6_catalog_amended (db : DB) (cat : String) :
    (get_products_by_category db cat).Perm
        (db.products.filter (fun p => p.category = cat ∧ p.is_available = true)) ∧
    List.Sorted byName (get_products_by_category db cat) ∧
    (cat ≠ "All" → mainGetProductsByCategory db cat = get_products_by_category db cat) ∧
    (mainGetProductsByCategory db "All").Perm
        (db.products.filter (fun p => p.is_available = true)) ∧
    List.Sorted byCatName (mainGetProductsByCategory db "All") := by
  refine ⟨List.perm_insertionSort _ _, List.sorted_insertionSort _ _, ?_, ?_, ?_⟩
  · intro h
    rw [mainGetProductsByCategory, if_neg h]
  · rw [mainGetProductsByCategory, if_pos rfl]
    exact List.perm_insertionSort _ _
  · rw [mainGetProductsByCategory, if_pos rfl]
    exact List.sorted_insertionSort _ _

/-- C6 witness: for the concrete category `"Coffee"` the two
implementations agree on the empty store. -/
theorem c6_catalog_amended_witness :
    mainGetProductsByCategory ⟨[], [], [], []⟩ "Coffee"
      = get_products_by_category ⟨[], [], [], []⟩ "Coffee" :=
  (c6_catalog_amended ⟨[], [], [], []⟩ "Coffee").2.2.1 (by decide)

/-! ## C7 — merging cart additions by product id -/

/-- Unfolding `add_to_order` one line at a time. -/
lemma add_to_order_cons (item : CartItem) (rest : List CartItem) (p : Product) :
    add_to_order (item :: rest) p
      = if item.id = p.id then { item with quantity := item.quantity + 1 } :: rest
        else item :: add_to_order rest p := rfl

/-- `cartQtyOf` over a cons. -/
lemma cartQtyOf_cons (item : CartItem) (rest : List CartItem) (pid : Nat) :
    cartQtyOf (item :: rest) pid
      = (if item.id = pid then item.quantity else 0) + cartQtyOf rest pid := by
  by_cases h : item.id = pid <;> simp [cartQtyOf, List.filter_cons, h]

/-- Adding a product absent from the cart appends a fresh line with
quantity 1 and empty customizations. -/
lemma add_to_order_of_not_mem (cart : List CartItem) (p : Product)
    (h : ∀ item ∈ cart, item.id ≠ p.id) :
    add_to_order cart p = cart ++ [⟨p.id, p.name, p.price, 1, []⟩] := by
  induction cart with
  | nil => rfl
  | cons item rest ih =>
    rw [add_to_order_cons, if_neg (h item (List.mem_cons_self item rest)),
      ih (fun it hit => h it (List.mem_cons_of_mem item hit))]
    rfl

/-- Adding the product again bumps the freshly appended line to
quantity 2. -/
lemma add_to_order_append_bump (cart : List CartItem) (p : Product)
    (h : ∀ item ∈ cart, item.id ≠ p.id) :
    add_to_order (cart ++ [⟨p.id, p.name, p.price, 1, []⟩]) p
      = cart ++ [⟨p.id, p.name, p.price, 2, []⟩] := by
  induction cart with
  | nil => simp [add_to_order]
  | cons item rest ih =>
    rw [List.cons_append, add_to_order_cons,
      if_neg (h item (List.mem_cons_self item rest)),
      ih (fun it hit => h it (List.mem_cons_of_mem item hit))]
    rfl

/-- Adding a product already in the cart increments exactly the matching
line: same number of lines, quantity for the id up by one, all other
lines untouched. -/
lemma add_to_order_of_mem (cart : List CartItem) (p : Product)
    (h : ∃ item ∈ cart, item.id = p.id) :
    (add_to_order cart p).length = cart.length ∧
    cartQtyOf (add_to_order cart p) p.id = cartQtyOf cart p.id + 1 ∧
    (add_to_order cart p).filter (fun item => item.id ≠ p.id)
      = cart.filter (fun item => item.id ≠ p.id) := by
  induction cart with
  | nil => simp at h
  | cons item rest ih =>
    by_cases hid : item.id = p.id
    · rw [add_to_order_cons, if_pos hid]
      refine ⟨rfl, ?_, ?_⟩
      · have hproj : ({ item with quantity := item.quantity + 1 } : CartItem).id
            = item.id := rfl
        rw [cartQtyOf_cons, cartQtyOf_cons, hproj, if_pos hid, if_pos hid]
        dsimp only
        omega
      · rw [List.filter_cons, List.filter_cons]
        simp [hid]
    · have h' : ∃ it ∈ rest, it.id = p.id := by
        rcases h with ⟨it, hit, he⟩
        rcases List.mem_cons.mp hit with rfl | hm
        · exact absurd he hid
        · exact ⟨it, hm, he⟩
      obtain ⟨ih1, ih2, ih3⟩ := ih h'
      rw [add_to_order_cons, if_neg hid]
      refine ⟨?_, ?_, ?_⟩
      · rw [List.length_cons, List.length_cons, ih1]
      · rw [cartQtyOf_cons, cartQtyOf_cons, ih2, if_neg hid]
        omega
      · rw [List.filter_cons, List.filter_cons, ih3]

/-- C7: adding the same product twice to a cart that did not contain it
yields exactly one line for that product, with quantity 2 and empty
customizations — never two lines. In general, `add` appends a fresh
quantity-1 line when the product id is absent, and otherwise increments
the matching line by 1 (line count, per-id quantity and all other lines
behave accordingly). -/
theorem c7_cart_merge (cart : List CartItem) (p : Product) :
    ((∀ item ∈ cart, item.id ≠ p.id) →
        add_to_order cart p = cart ++ [⟨p.id, p.name, p.price, 1, []⟩]) ∧
    ((∀ item ∈ cart, item.id ≠ p.id) →
        (add_to_order (add_to_order cart p) p).filter (fun item => item.id = p.id)
          = [⟨p.id, p.name, p.price, 2, []⟩]) ∧
    ((∃ item ∈ cart, item.id = p.id) →
        (add_to_order cart p).length = cart.length ∧
        cartQtyOf (add_to_order cart p) p.id = cartQtyOf cart p.id + 1 ∧
        (add_to_order cart p).filter (fun item => item.id ≠ p.id)
          = cart.filter (fun item => item.id ≠ p.id)) := by
  refine ⟨fun h => add_to_order_of_not_mem cart p h, fun h => ?_,
    fun h => add_to_order_of_mem cart p h⟩
  rw [add_to_order_of_not_mem cart p h, add_to_order_append_bump cart p h,
    List.filter_append,
    List.filter_eq_nil_iff.mpr (by intro it hit; simpa using h it hit)]
  simp

/-- C7 witness: adding one concrete product twice to the empty cart. -/
theorem c7_cart_merge_witness :
    (add_to_order (add_to_order [] ⟨1, "Latte", "Coffee", 4, true⟩)
        ⟨1, "Latte", "Coffee", 4, true⟩).filter
      (fun item => item.id = (⟨1, "Latte", "Coffee", 4, true⟩ : Product).id)
      = [⟨1, "Latte", 4, 2, []⟩] :=
  (c7_cart_merge [] ⟨1, "Latte", "Coffee", 4, true⟩).2.1 (by simp)

/-! ## C10 — reachable carts have distinct ids and positive quantities -/

/-- The id column after an `add`: unchanged when the id was present,
extended by the new id otherwise. -/
lemma add_to_order_ids (cart : List CartItem) (p : Product) :
    (add_to_order cart p).map CartItem.id
      = if p.id ∈ cart.map CartItem.id then cart.map CartItem.id
        else cart.map CartItem.id ++ [p.id] := by
  induction cart with
  | nil => simp [add_to_order]
  | cons item rest ih =>
    rw [add_to_order_cons]
    by_cases hid : item.id = p.id
    · rw [if_pos hid, if_pos (by simp [hid])]
      rfl
    · rw [if_neg hid, List.map_cons, List.map_cons, ih]
      by_cases hmem : p.id ∈ rest.map CartItem.id
      · rw [if_pos hmem, if_pos (List.mem_cons_of_mem _ hmem)]
      · rw [if_neg hmem,
          if_neg (by
            intro hc
            rcases List.mem_cons.mp hc with he | hm
            · exact hid he.symm
            · exact hmem hm)]
        rfl

/-- `add` keeps every line quantity at least 1. -/
lemma add_to_order_quantity (cart : List CartItem) (p : Product)
    (h : ∀ item ∈ cart, 1 ≤ item.quantity) :
    ∀ item ∈ add_to_order cart p, 1 ≤ item.quantity := by
  induction cart with
  | nil =>
    intro item hit
    rw [show add_to_order [] p = [⟨p.id, p.name, p.price, 1, []⟩] from rfl] at hit
    simp at hit
    simp [hit]
  | cons it rest ih =>
    intro item hit
    rw [add_to_order_cons] at hit
    by_cases hid : it.id = p.id
    · rw [if_pos hid] at hit
      rcases List.mem_cons.mp hit with rfl | hm
      · show 1 ≤ it.quantity + 1
        omega
      · exact h item (List.mem_cons_of_mem it hm)
    · rw [if_neg hid] at hit
      rcases List.mem_cons.mp hit with rfl | hm
      · exact h item (List.mem_cons_self item rest)
      · exact ih (fun x hx => h x (List.mem_cons_of_mem it hx)) item hm

/-- Every single cart operation preserves the invariant. -/
lemma cartInv_applyCartOp (cart : List CartItem) (op : CartOp) (h : CartInv cart) :
    CartInv (applyCartOp cart op) := by
  cases op with
  | add p =>
    refine ⟨?_, add_to_order_quantity cart p h.2⟩
    show (add_to_order cart p).map CartItem.id |>.Nodup
    rw [add_to_order_ids]
    by_cases hmem : p.id ∈ cart.map CartItem.id
    · rw [if_pos hmem]
      exact h.1
    · rw [if_neg hmem]
      exact List.Nodup.append h.1 (List.nodup_singleton _)
        (fun a ha hb => hmem (by rwa [List.mem_singleton.mp hb] at ha))
  | remove pid =>
    refine ⟨?_, ?_⟩
    · exact ((List.filter_sublist cart).map CartItem.id).nodup h.1
    · intro item hit
      exact h.2 item (List.mem_of_mem_filter hit)
  | clear => exact ⟨List.nodup_nil, by simp [applyCartOp, clear_order]⟩

/-- The invariant holds along any operation sequence. -/
lemma cartInv_applyCartOps (cart : List CartItem) (ops : List CartOp)
    (h : CartInv cart) : CartInv (applyCartOps cart ops) := by
  induction ops generalizing cart with
  | nil => exact h
  | cons op rest ih => exact ih _ (cartInv_applyCartOp cart op h)

/-- Under distinct ids, `remove` deletes at most one line. -/
lemma remove_from_order_length (cart : List CartItem) (pid : Nat)
    (h : (cart.map CartItem.id).Nodup) :
    cart.length ≤ (remove_from_order cart pid).length + 1 := by
  simp only [remove_from_order] at *
  induction cart with
  | nil => simp
  | cons item rest ih =>
    rw [List.map_cons, List.nodup_cons] at h
    have hr := ih h.2
    rw [List.filter_cons]
    split
    · rw [List.length_cons, List.length_cons]
      omega
    · next hcond =>
      have hid : item.id = pid := by simpa using hcond
      have hrest : rest.filter (fun item => decide (item.id ≠ pid)) = rest := by
        rw [List.filter_eq_self]
        intro it hit
        have hne : it.id ≠ pid := fun heq =>
          h.1 (hid ▸ heq ▸ List.mem_map_of_mem CartItem.id hit)
        simpa using hne
      rw [hrest, List.length_cons]

/-- C10: starting from the empty cart, any sequence of add / remove /
clear operations leaves the line items with pairwise-distinct product ids
and every quantity at least 1; consequently `remove` deletes at most one
line. -/
theorem c10_cart_reachable_invariant (ops : List CartOp) :
    CartInv (applyCartOps [] ops) ∧
    ∀ pid : Nat, (applyCartOps [] ops).length
        ≤ (remove_from_order (applyCartOps [] ops) pid).length + 1 := by
  have hinv : CartInv (applyCartOps [] ops) :=
    cartInv_applyCartOps [] ops ⟨List.nodup_nil, by simp⟩
  exact ⟨hinv, fun pid => remove_from_order_length _ pid hinv.1⟩

/-! ## C8 — low-stock report -/

/-- C8: `get_low_stock_items` returns exactly the
(name, current_stock, min_stock) rows of the product/inventory join
whose `current_stock ≤ min_stock` — no row outside that set, every row
inside it — ordered ascending by `current_stock`. -/
theorem c8_low_stock (db : DB) :
    (get_low_stock_items db).Perm
        ((joinProductsInventory db).filter
          (fun r => r.current_stock ≤ r.min_stock)) ∧
    List.Sorted byStock (get_low_stock_items db) ∧
    ∀ r : LowStockRow,
      r ∈ get_low_stock_items db ↔
        ∃ p ∈ db.products, ∃ i ∈ db.inventory,
          i.product_id = p.id ∧ i.current_stock ≤ i.min_stock ∧
          r = ⟨p.name, i.current_stock, i.min_stock⟩ := by
  refine ⟨List.perm_insertionSort _ _, List.sorted_insertionSort _ _, fun r => ?_⟩
  rw [get_low_stock_items, (List.perm_insertionSort byStock _).mem_iff,
    List.mem_filter, joinProductsInventory, List.mem_flatMap]
  constructor
  · rintro ⟨⟨p, hp, hr⟩, hle⟩
    obtain ⟨i, hi, rfl⟩ := List.mem_map.mp hr
    refine ⟨p, hp, i, List.mem_of_mem_filter hi, ?_, ?_, rfl⟩
    · simpa using List.of_mem_filter hi
    · simpa using hle
  · rintro ⟨p, hp, i, hi, hpid, hle, rfl⟩
    refine ⟨⟨p, hp, ?_⟩, by simpa using hle⟩
    exact List.mem_map.mpr ⟨i, List.mem_filter.mpr ⟨hi, by simpa using hpid⟩, rfl⟩

/-! ## C9 — the historical synthesizer: calendar and sampling lemmas -/

/-- Month lengths are between 28 and 31 days. -/
lemma daysInMonth_bounds (y m : Nat) :
    28 ≤ daysInMonth y m ∧ daysInMonth y m ≤ 31 := by
  unfold daysInMonth
  split_ifs <;> omega

/-- December has 31 days. -/
lemma daysInMonth_dec (y : Nat) : daysInMonth y 12 = 31 := by
  norm_num [daysInMonth]

/-- `ValidYMD` on an explicit date, unfolded. -/
lemma validYMD_mk (y m day : Nat) :
    ValidYMD ⟨y, m, day⟩ ↔ 1 ≤ m ∧ m ≤ 12 ∧ 1 ≤ day ∧ day ≤ daysInMonth y m :=
  Iff.rfl

/-- `dateCode` on an explicit date, unfolded. -/
lemma dateCode_mk (y m day : Nat) :
    dateCode ⟨y, m, day⟩ = (y * 100 + m) * 100 + day := rfl

/-- `nextDay` on an explicit date, unfolded. -/
lemma nextDay_mk (y m day : Nat) :
    nextDay ⟨y, m, day⟩
      = if day < daysInMonth y m then ⟨y, m, day + 1⟩
        else if m < 12 then ⟨y, m + 1, 1⟩
        else ⟨y + 1, 1, 1⟩ := rfl

/-- `prevDay` on an explicit date, unfolded. -/
lemma prevDay_mk (y m day : Nat) :
    prevDay ⟨y, m, day⟩
      = if 1 < day then ⟨y, m, day - 1⟩
        else if 1 < m then ⟨y, m - 1, daysInMonth y (m - 1)⟩
        else ⟨y - 1, 12, 31⟩ := rfl

/-- Advancing one day preserves date validity. -/
lemma nextDay_valid (d : DateYMD) (h : ValidYMD d) : ValidYMD (nextDay d) := by
  obtain ⟨y, m, day⟩ := d
  rw [validYMD_mk] at h
  rw [nextDay_mk]
  split_ifs with ha hb
  · rw [validYMD_mk]
    omega
  · rw [validYMD_mk]
    have := daysInMonth_bounds y (m + 1)
    omega
  · rw [validYMD_mk]
    have := daysInMonth_bounds (y + 1) 1
    omega

/-- Advancing one day strictly increases the `%Y%m%d` digit code. -/
lemma dateCode_lt_nextDay (d : DateYMD) (h : ValidYMD d) :
    dateCode d < dateCode (nextDay d) := by
  obtain ⟨y, m, day⟩ := d
  rw [validYMD_mk] at h
  have hdim := daysInMonth_bounds y m
  rw [nextDay_mk]
  split_ifs with ha hb <;> rw [dateCode_mk, dateCode_mk] <;> omega

/-- Stepping one day back preserves date validity. -/
lemma prevDay_valid (d : DateYMD) (h : ValidYMD d) : ValidYMD (prevDay d) := by
  obtain ⟨y, m, day⟩ := d
  rw [validYMD_mk] at h
  rw [prevDay_mk]
  split_ifs with ha hb
  · rw [validYMD_mk]
    omega
  · rw [validYMD_mk]
    have := daysInMonth_bounds y (m - 1)
    omega
  · rw [validYMD_mk, daysInMonth_dec]
    omega

/-- Stepping any number of days back preserves date validity. -/
lemma prevDays_valid (n : Nat) (d : DateYMD) (h : ValidYMD d) :
    ValidYMD (prevDays n d) := by
  induction n generalizing d with
  | zero => exact h
  | succ n ih => exact ih (prevDay d) (prevDay_valid d h)

/-- The modelled `randint` always lands in `[lo, hi]`. -/
lemma srandint_bounds (lo hi : Nat) (rand : Nat → Nat) (pos : Nat) (h : lo ≤ hi) :
    lo ≤ (srandint lo hi rand pos).1 ∧ (srandint lo hi rand pos).1 ≤ hi := by
  simp only [srandint]
  have hm : rand pos % (hi + 1 - lo) < hi + 1 - lo := Nat.mod_lt _ (by omega)
  omega

/-- Removing the `n`-th element is a permutation-extraction. -/
lemma pickIdx_perm {α : Type} (l : List α) (n : Nat) (x : α) (rest : List α)
    (h : pickIdx l n = some (x, rest)) : l.Perm (x :: rest) := by
  induction l generalizing n x rest with
  | nil => simp [pickIdx] at h
  | cons a as ih =>
    cases n with
    | zero =>
      simp only [pickIdx, Option.some.injEq, Prod.mk.injEq] at h
      obtain ⟨rfl, rfl⟩ := h
      exact List.Perm.refl _
    | succ n =>
      cases hp : pickIdx as n with
      | none => rw [pickIdx, hp] at h; simp at h
      | some p =>
        obtain ⟨y, ys⟩ := p
        rw [pickIdx, hp] at h
        have h' : (y, a :: ys) = (x, rest) := Option.some.inj h
        rw [Prod.mk.injEq] at h'
        obtain ⟨hxy, hr⟩ := h'
        rw [← hxy, ← hr]
        exact ((ih n y ys hp).cons a).trans (List.Perm.swap y a ys)

/-- In-range indices can always be extracted. -/
lemma pickIdx_isSome {α : Type} (l : List α) (n : Nat) (h : n < l.length) :
    ∃ x rest, pickIdx l n = some (x, rest) := by
  induction l generalizing n with
  | nil => simp at h
  | cons a as ih =>
    cases n with
    | zero => exact ⟨a, as, rfl⟩
    | succ n =>
      obtain ⟨x, rest, hp⟩ := ih n (by simpa using Nat.lt_of_succ_lt_succ h)
      exact ⟨x, a :: rest, by rw [pickIdx, hp]; rfl⟩

/-- Unfolding `sampleFrom` on a nonempty list and positive count. -/
lemma sampleFrom_cons_def {α : Type} (rand : Nat → Nat) (k : Nat) (a : α)
    (as : List α) (pos : Nat) :
    sampleFrom rand (k + 1) (a :: as) pos
      = match pickIdx (a :: as) (rand pos % (a :: as).length) with
        | none => ([], pos + 1)
        | some (x, rest) =>
          let r := sampleFrom rand k rest (pos + 1)
          (x :: r.1, r.2) := by
  rw [sampleFrom]
  intro hcontra
  cases hcontra

/-- The sample plus some remainder is a permutation of the input: drawing
is without replacement. -/
lemma sampleFrom_perm {α : Type} (rand : Nat → Nat) (k : Nat) (l : List α)
    (pos : Nat) :
    ∃ rest, l.Perm ((sampleFrom rand k l pos).1 ++ rest) := by
  induction k generalizing l pos with
  | zero => exact ⟨l, by simp [sampleFrom]⟩
  | succ k ih =>
    cases l with
    | nil => exact ⟨[], by simp [sampleFrom]⟩
    | cons a as =>
      rw [sampleFrom_cons_def]
      cases hp : pickIdx (a :: as) (rand pos % (a :: as).length) with
      | none => exact ⟨a :: as, by simp⟩
      | some p =>
        obtain ⟨x, r⟩ := p
        obtain ⟨tail, htail⟩ := ih r (pos + 1)
        refine ⟨tail, ?_⟩
        exact (pickIdx_perm _ _ _ _ hp).trans (htail.cons x)

/-- Sampling `k ≤ |l|` elements returns exactly `k` elements. -/
lemma sampleFrom_length {α : Type} (rand : Nat → Nat) :
    ∀ (k : Nat) (l : List α) (pos : Nat), k ≤ l.length →
      (sampleFrom rand k l pos).1.length = k := by
  intro k
  induction k with
  | zero => intro l pos _; simp [sampleFrom]
  | succ k ih =>
    intro l pos hk
    cases l with
    | nil => simp at hk
    | cons a as =>
      have hidx : rand pos % (a :: as).length < (a :: as).length :=
        Nat.mod_lt _ (by simp)
      obtain ⟨x, r, hp⟩ := pickIdx_isSome _ _ hidx
      have hlen : r.length + 1 = (a :: as).length := by
        have := (pickIdx_perm _ _ _ _ hp).length_eq
        simpa using this.symm
      rw [sampleFrom_cons_def, hp]
      simp only [List.length_cons]
      rw [ih r (pos + 1) (by simp only [List.length_cons] at hlen hk; omega)]

/-- Sampling never invents elements: drawing from a list with distinct
keys yields distinct keys. -/
lemma sampleFrom_nodup_map {α β : Type} (f : α → β) (rand : Nat → Nat) (k : Nat)
    (l : List α) (pos : Nat) (h : (l.map f).Nodup) :
    ((sampleFrom rand k l pos).1.map f).Nodup := by
  obtain ⟨rest, hperm⟩ := sampleFrom_perm rand k l pos
  have hmap := hperm.map f
  rw [List.map_append] at hmap
  exact ((hmap.nodup_iff).mp h).of_append_left

/-- The generated items carry exactly the sampled product ids. -/
lemma drawQuantities_map_pid (rand : Nat → Nat) (sel : List (Nat × ℚ)) (pos : Nat) :
    (drawQuantities rand sel pos).1.map GenOrderItem.product_id = sel.map Prod.fst := by
  induction sel generalizing pos with
  | nil => rfl
  | cons hd tl ih =>
    obtain ⟨pid, price⟩ := hd
    simp [drawQuantities, ih]

/-- One generated item per sampled product. -/
lemma drawQuantities_length (rand : Nat → Nat) (sel : List (Nat × ℚ)) (pos : Nat) :
    (drawQuantities rand sel pos).1.length = sel.length := by
  have := congrArg List.length (drawQuantities_map_pid rand sel pos)
  simpa using this

/-- What one generated dummy order satisfies: order number built from the
synthetic date and per-day sequence number, backdated creation date, 1–4
items over distinct products. -/
lemma genOneOrder_spec (products : List (Nat × ℚ)) (customers : List Nat)
    (order_date : DateYMD) (order_num : Nat) (rand : Nat → Nat) (pos : Nat)
    (hne : products ≠ []) (hnd : (products.map Prod.fst).Nodup) :
    (genOneOrder products customers order_date order_num rand pos).1.order_number
        = dateCode order_date * 1000 + order_num ∧
    (genOneOrder products customers order_date order_num rand pos).1.created_at
        = order_date ∧
    1 ≤ (genOneOrder products customers order_date order_num rand pos).1.items.length ∧
    (genOneOrder products customers order_date order_num rand pos).1.items.length ≤ 4 ∧
    ((genOneOrder products customers order_date order_num rand pos).1.items.map
        GenOrderItem.product_id).Nodup := by
  have hlen : 0 < products.length := List.length_pos.mpr hne
  refine ⟨rfl, rfl, ?_, ?_, ?_⟩
  · simp only [genOneOrder]
    rw [drawQuantities_length,
      sampleFrom_length rand _ _ _ (Nat.min_le_right _ _)]
    exact Nat.le_min.mpr ⟨(srandint_bounds 1 4 rand _ (by norm_num)).1, hlen⟩
  · simp only [genOneOrder]
    rw [drawQuantities_length,
      sampleFrom_length rand _ _ _ (Nat.min_le_right _ _)]
    exact le_trans (Nat.min_le_left _ _) (srandint_bounds 1 4 rand _ (by norm_num)).2
  · simp only [genOneOrder]
    rw [drawQuantities_map_pid]
    exact sampleFrom_nodup_map Prod.fst rand _ products _ hnd

/-- One synthetic day: the generated order numbers are exactly
`dateCode · 1000 + seq` for the consecutive sequence numbers, and every
order is backdated to the day with 1–4 distinct-product items. -/
lemma genDayAux_spec (products : List (Nat × ℚ)) (customers : List Nat)
    (order_date : DateYMD) (rand : Nat → Nat)
    (hne : products ≠ []) (hnd : (products.map Prod.fst).Nodup) :
    ∀ (n s pos : Nat),
      (genDayAux products customers order_date rand n s pos).1.map
          GenOrder.order_number
          = (List.range' s n).map (fun j => dateCode order_date * 1000 + j) ∧
      ∀ o ∈ (genDayAux products customers order_date rand n s pos).1,
        o.created_at = order_date ∧ 1 ≤ o.items.length ∧ o.items.length ≤ 4 ∧
          (o.items.map GenOrderItem.product_id).Nodup := by
  intro n
  induction n with
  | zero =>
    intro s pos
    constructor
    · simp [genDayAux]
    · intro o ho
      simp [genDayAux] at ho
  | succ n ih =>
    intro s pos
    obtain ⟨g1, g2, g3, g4, g5⟩ :=
      genOneOrder_spec products customers order_date s rand pos hne hnd
    obtain ⟨ih1, ih2⟩ :=
      ih (s + 1) (genOneOrder products customers order_date s rand pos).2
    have hcons : (genDayAux products customers order_date rand (n + 1) s pos).1
        = (genOneOrder products customers order_date s rand pos).1
          :: (genDayAux products customers order_date rand n (s + 1)
                (genOneOrder products customers order_date s rand pos).2).1 := rfl
    constructor
    · rw [hcons, List.map_cons, ih1, List.range'_succ, List.map_cons, g1]
    · intro o ho
      rw [hcons] at ho
      rcases List.mem_cons.mp ho with rfl | hm
      · exact ⟨g2, g3, g4, g5⟩
      · exact ih2 o hm

/-- The synthesizer's day loop, generalised over the number of remaining
days: one batch per consecutive calendar day, 5–15 orders per day, every
order backdated and well-formed, day codes strictly increasing, and all
order numbers bounded below by the first day's code and globally
distinct. -/
lemma genDays_spec (products : List (Nat × ℚ)) (customers : List Nat)
    (rand : Nat → Nat) (hne : products ≠ []) (hnd : (products.map Prod.fst).Nodup) :
    ∀ (n : Nat) (d : DateYMD) (pos : Nat), ValidYMD d →
      (genDays products customers rand n d pos).1.length = n ∧
      (∀ pair ∈ (genDays products customers rand n d pos).1,
        ValidYMD pair.1 ∧ dateCode d ≤ dateCode pair.1 ∧
        5 ≤ pair.2.length ∧ pair.2.length ≤ 15 ∧
        pair.2.map GenOrder.order_number
          = (List.range' 0 pair.2.length).map (fun j => dateCode pair.1 * 1000 + j) ∧
        ∀ o ∈ pair.2, o.created_at = pair.1 ∧ 1 ≤ o.items.length ∧
          o.items.length ≤ 4 ∧ (o.items.map GenOrderItem.product_id).Nodup) ∧
      ((genDays products customers rand n d pos).1.map Prod.fst).Pairwise
        (fun a b => dateCode a < dateCode b) ∧
      (∀ x ∈ ((genDays products customers rand n d pos).1.flatMap
          (fun pair => pair.2)).map GenOrder.order_number,
        dateCode d * 1000 ≤ x) ∧
      (((genDays products customers rand n d pos).1.flatMap
          (fun pair => pair.2)).map GenOrder.order_number).Nodup := by
  intro n
  induction n with
  | zero =>
    intro d pos _
    refine ⟨rfl, ?_, ?_, ?_, ?_⟩
    · intro pair hpair
      simp [genDays] at hpair
    · simp [genDays]
    · intro x hx
      simp [genDays] at hx
    · simp [genDays]
  | succ n ih =>
    intro d pos hv
    have hb := srandint_bounds 5 15 rand pos (by norm_num)
    have hday := genDayAux_spec products customers d rand hne hnd
      (srandint 5 15 rand pos).1 0 (srandint 5 15 rand pos).2
    have hvalid2 := nextDay_valid d hv
    have hstep := dateCode_lt_nextDay d hv
    set cnt := (srandint 5 15 rand pos).1 with hcnt_def
    set pos1 := (srandint 5 15 rand pos).2 with hpos1_def
    set os := (genDayAux products customers d rand cnt 0 pos1).1 with hos_def
    set pos2 := (genDayAux products customers d rand cnt 0 pos1).2 with hpos2_def
    obtain ⟨ihlen, ihpair, ihpw, ihlb, ihnd⟩ := ih (nextDay d) pos2 hvalid2
    set rest := (genDays products customers rand n (nextDay d) pos2).1 with hrest_def
    have hcons : (genDays products customers rand (n + 1) d pos).1
        = (d, os) :: rest := rfl
    have hoslen : os.length = cnt := by
      have := congrArg List.length hday.1
      simpa using this
    have hosmem : ∀ x ∈ os.map GenOrder.order_number,
        dateCode d * 1000 ≤ x ∧ x < dateCode d * 1000 + 1000 := by
      intro x hx
      rw [hday.1] at hx
      obtain ⟨j, hj, rfl⟩ := List.mem_map.mp hx
      obtain ⟨i, hi, rfl⟩ := List.mem_range'.mp hj
      have hcnt15 : cnt ≤ 15 := hb.2
      constructor <;> omega
    refine ⟨?_, ?_, ?_, ?_, ?_⟩
    · rw [hcons, List.length_cons, ihlen]
    · intro pair hpair
      rw [hcons] at hpair
      rcases List.mem_cons.mp hpair with rfl | hm
      · refine ⟨hv, le_refl _, ?_, ?_, ?_, hday.2⟩
        · show 5 ≤ os.length
          rw [hoslen]
          exact hb.1
        · show os.length ≤ 15
          rw [hoslen]
          exact hb.2
        · show os.map GenOrder.order_number
            = (List.range' 0 os.length).map (fun j => dateCode d * 1000 + j)
          rw [hoslen]
          exact hday.1
      · obtain ⟨hpv, hple, hrest⟩ := ihpair pair hm
        exact ⟨hpv, le_trans (le_of_lt hstep) hple, hrest⟩
    · rw [hcons, List.map_cons, List.pairwise_cons]
      refine ⟨?_, ihpw⟩
      intro b hbm
      obtain ⟨pair, hpm, rfl⟩ := List.mem_map.mp hbm
      exact lt_of_lt_of_le hstep (ihpair pair hpm).2.1
    · intro x hx
      rw [hcons, List.flatMap_cons, List.map_append] at hx
      rcases List.mem_append.mp hx with hl | hr
      · exact (hosmem x hl).1
      · exact le_trans (Nat.mul_le_mul_right 1000 (le_of_lt hstep)) (ihlb x hr)
    · rw [hcons, List.flatMap_cons, List.map_append]
      refine List.Nodup.append ?_ ihnd ?_
      · rw [hday.1]
        exact List.Nodup.map (fun a b hab => by omega) (List.nodup_range' 0 cnt)
      · intro x hxl hxr
        have h1 := hosmem x hxl
        have h2 := ihlb x hxr
        have h3 : dateCode d < dateCode (nextDay d) := hstep
        omega

/-- C9: a synthesizer run over a store with at least one product (with
distinct product ids) produces exactly 30 day batches on pairwise-distinct
calendar dates, each holding between 5 and 15 orders backdated to its
date; every order has 1–4 items over distinct products; each day's order
numbers embed the day's `%Y%m%d` code and the consecutive per-day
sequence numbers; and all order numbers are distinct across the run. -/
theorem c9_synthesizer (products : List (Nat × ℚ)) (customers : List Nat)
    (now : DateYMD) (rand : Nat → Nat) (hval : ValidYMD now)
    (hne : products ≠ []) (hnd : (products.map Prod.fst).Nodup) :
    (generate_dummy_orders products customers now rand).length = 30 ∧
    ((generate_dummy_orders products customers now rand).map Prod.fst).Nodup ∧
    (∀ pair ∈ generate_dummy_orders products customers now rand,
      5 ≤ pair.2.length ∧ pair.2.length ≤ 15 ∧
      pair.2.map GenOrder.order_number
        = (List.range' 0 pair.2.length).map (fun j => dateCode pair.1 * 1000 + j) ∧
      ∀ o ∈ pair.2, o.created_at = pair.1 ∧ 1 ≤ o.items.length ∧
        o.items.length ≤ 4 ∧ (o.items.map GenOrderItem.product_id).Nodup) ∧
    (((generate_dummy_orders products customers now rand).flatMap
        (fun pair => pair.2)).map GenOrder.order_number).Nodup := by
  have hstart : ValidYMD (prevDays 30 now) := prevDays_valid 30 now hval
  obtain ⟨h1, h2, h3, _, h5⟩ :=
    genDays_spec products customers rand hne hnd 30 (prevDays 30 now) 0 hstart
  refine ⟨h1, ?_, ?_, h5⟩
  · exact h3.imp (fun hab heq => absurd (heq ▸ hab) (lt_irrefl _))
  · intro pair hp
    obtain ⟨_, _, hrest⟩ := h2 pair hp
    exact hrest

/-- C9 witness: a concrete run over a one-product store yields 30 day
batches. -/
theorem c9_synthesizer_witness :
    (generate_dummy_orders [(1, 4)] [] ⟨2025, 1, 15⟩ (fun _ => 0)).length = 30 :=
  (c9_synthesizer [(1, 4)] [] ⟨2025, 1, 15⟩ (fun _ => 0)
    (by decide) (by decide) (by decide)).1

end POS
